import Mathlib

/-!
Verification of the filtering-and-aggregation pipeline of the
Global Homelessness Dashboard (src/app.py).

The app is a single-page dashboard: a loader fetches a CSV into a pandas
DataFrame, sidebar widgets build filter criteria (a numeric range over the
`total` column and a multi-select of countries with an "All" entry), and each
chart consumes an aggregate of the filtered rows.

Shallow embedding conventions:
- a float cell of the `total` column is modelled by `Cell`
  (`na` = NaN/null, `pinf`/`ninf` = the two infinities, `val x` = a finite
  value, with finite data modelled over `Int` since the slider bounds are
  produced by `int(...)`);
- a pandas Series reduction that can produce NaN or an infinity is modelled
  by `ExtInt`;
- a DataFrame row of the dataset is `Record`, a dataset is `List Record`;
- boolean-mask filtering is `List.filter`, which is the pandas semantics:
  kept rows appear unmodified and in their original order;
- `groupby(sort=True)` enumerates group keys in ascending key order; string
  keys are compared by code points, modelled by comparing `String.data`
  lexicographically;
- `sort_values(ascending=False)` is modelled by a stable descending sort
  with NaN placed last (pandas `na_position` defaults to `last`).
-/

namespace Dashboard

/-- Value of a float cell in the `total` column: NaN (which is also the null
of pandas), positive or negative infinity, or a finite value. -/
inductive Cell where
  | na : Cell
  | pinf : Cell
  | ninf : Cell
  | val : Int → Cell
deriving DecidableEq, Repr

/-- Test for the NaN/null cell, as used by `Series.dropna`. -/
def Cell.isNA : Cell → Bool
  | .na => true
  | _ => false

/-- Test for a finite cell, as computed by `np.isfinite` (false on NaN and on
both infinities). -/
def Cell.isFiniteVal : Cell → Bool
  | .val _ => true
  | _ => false

/-- Embedding of `Series.between(lo, hi)` applied to one cell: inclusive at
both ends; every comparison with NaN is false in pandas, and an infinity can
never satisfy both inclusive bounds, so only a finite value can pass. -/
def Cell.between : Cell → Int → Int → Bool
  | .val x, lo, hi => decide (lo ≤ x) && decide (x ≤ hi)
  | _, _, _ => false

/-- One row of the homelessness dataset (columns of src/app.py). -/
structure Record where
  country : String
  total : Cell
  individuals : Cell
  family_households : Cell
  veterans : Cell
  unaccompanied_youth : Cell
  latitude : Cell
  longitude : Cell
deriving DecidableEq, Repr

/-- Filter state assembled from the sidebar widgets: the slider pair
`homeless_range` and the multi-select `selected_countries`, whose options
include the literal `"All"` entry. -/
structure FilterCriteria where
  minTotal : Int
  maxTotal : Int
  countries : List String
deriving DecidableEq, Repr

/-- Embedding of the filter block of src/app.py (lines 166-172):
if `"All" in selected_countries` keep every row whose `total` is between the
slider bounds, otherwise additionally require the country to be one of the
selected ones. -/
def filtered_data (data : List Record) (c : FilterCriteria) : List Record :=
  if "All" ∈ c.countries then
    data.filter (fun r => r.total.between c.minTotal c.maxTotal)
  else
    data.filter (fun r =>
      r.total.between c.minTotal c.maxTotal && c.countries.contains r.country)

/-- C1: membership in the filtered view is exactly: the record is a row of
the dataset, its `total` is a finite value inside the inclusive slider range,
and either `"All"` is selected or its country is selected. An empty result is
an ordinary value of the function, not an error. -/
theorem filtered_data_mem_iff (data : List Record) (c : FilterCriteria)
    (r : Record) :
    r ∈ filtered_data data c ↔
      r ∈ data ∧
      (∃ x : Int, r.total = Cell.val x ∧ c.minTotal ≤ x ∧ x ≤ c.maxTotal) ∧
      ("All" ∈ c.countries ∨ r.country ∈ c.countries) := by
  unfold filtered_data
  by_cases hall : "All" ∈ c.countries
  · simp only [if_pos hall, List.mem_filter]
    constructor
    · rintro ⟨hr, hb⟩
      refine ⟨hr, ?_, Or.inl hall⟩
      cases ht : r.total with
      | val x =>
        rw [ht] at hb
        simp only [Cell.between, Bool.and_eq_true, decide_eq_true_eq] at hb
        exact ⟨x, rfl, hb.1, hb.2⟩
      | na => rw [ht] at hb; simp [Cell.between] at hb
      | pinf => rw [ht] at hb; simp [Cell.between] at hb
      | ninf => rw [ht] at hb; simp [Cell.between] at hb
    · rintro ⟨hr, ⟨x, hx, hlo, hhi⟩, -⟩
      refine ⟨hr, ?_⟩
      rw [hx]
      simp [Cell.between, hlo, hhi]
  · simp only [if_neg hall, List.mem_filter, Bool.and_eq_true]
    constructor
    · rintro ⟨hr, hb, hc⟩
      refine ⟨hr, ?_, Or.inr ?_⟩
      · cases ht : r.total with
        | val x =>
          rw [ht] at hb
          simp only [Cell.between, Bool.and_eq_true, decide_eq_true_eq] at hb
          exact ⟨x, rfl, hb.1, hb.2⟩
        | na => rw [ht] at hb; simp [Cell.between] at hb
        | pinf => rw [ht] at hb; simp [Cell.between] at hb
        | ninf => rw [ht] at hb; simp [Cell.between] at hb
      · simpa using hc
    · rintro ⟨hr, ⟨x, hx, hlo, hhi⟩, hc⟩
      rcases hc with hc | hc
      · exact absurd hc hall
      · refine ⟨hr, ?_, by simpa using hc⟩
        rw [hx]
        simp [Cell.between, hlo, hhi]

/-- C9: a slider state with `minTotal > maxTotal` admits no record, for any
dataset and any country selection. -/
theorem filtered_data_empty_of_vacuous_range (data : List Record)
    (c : FilterCriteria) (h : c.maxTotal < c.minTotal) :
    filtered_data data c = [] := by
  unfold filtered_data
  have hb : ∀ r : Record, r.total.between c.minTotal c.maxTotal = false := by
    intro r
    cases r.total with
    | val x =>
      simp only [Cell.between, Bool.and_eq_false_iff, decide_eq_false_iff_not]
      by_cases hx : c.minTotal ≤ x
      · exact Or.inr (by omega)
      · exact Or.inl hx
    | na => rfl
    | pinf => rfl
    | ninf => rfl
  by_cases hall : "All" ∈ c.countries
  · rw [if_pos hall]
    apply List.filter_eq_nil_iff.mpr
    intro r _
    simp [hb r]
  · rw [if_neg hall]
    apply List.filter_eq_nil_iff.mpr
    intro r _
    simp [hb r]

/-- Sample record with a finite total, used by concrete witnesses. -/
def mkRec (country : String) (t : Cell) : Record :=
  ⟨country, t, .val 0, .val 0, .val 0, .val 0, .val 0, .val 0⟩

/-- Witness for C9 at a concrete dataset and a concrete inverted range. -/
theorem filtered_data_empty_of_vacuous_range_witness :
    (3 : Int) < 5 ∧
      filtered_data [mkRec "India" (.val 4)] ⟨5, 3, ["All"]⟩ = [] :=
  ⟨by decide, filtered_data_empty_of_vacuous_range _ _ (by decide)⟩

/-- C10: the filtered view is an order-preserving subsequence of the input
dataset; in particular every row of the view is a row of the dataset,
unmodified, and relative order is preserved. -/
theorem filtered_data_sublist (data : List Record) (c : FilterCriteria) :
    (filtered_data data c).Sublist data := by
  unfold filtered_data
  by_cases hall : "All" ∈ c.countries
  · rw [if_pos hall]; exact List.filter_sublist data
  · rw [if_neg hall]; exact List.filter_sublist data

/-- Extended value of a pandas float reduction: NaN, an infinity, or a finite
value. -/
inductive ExtInt where
  | nan : ExtInt
  | pinf : ExtInt
  | ninf : ExtInt
  | fin : Int → ExtInt
deriving DecidableEq, Repr

/-- Accumulation step of `Series.sum()` (skipna default): NaN cells are
skipped, an infinity absorbs finite values, and opposite infinities produce
NaN. -/
def ExtInt.addCell : ExtInt → Cell → ExtInt
  | s, .na => s
  | .nan, _ => .nan
  | .pinf, .pinf => .pinf
  | .pinf, .ninf => .nan
  | .pinf, .val _ => .pinf
  | .ninf, .ninf => .ninf
  | .ninf, .pinf => .nan
  | .ninf, .val _ => .ninf
  | .fin _, .pinf => .pinf
  | .fin _, .ninf => .ninf
  | .fin s, .val x => .fin (s + x)

/-- Embedding of `Series.sum()` over a column of cells: left fold starting
from 0, since the sum of an empty or all-NaN column is 0 in pandas. -/
def extSum (l : List Cell) : ExtInt := l.foldl ExtInt.addCell (.fin 0)

/-- Descending key order used by `sort_values(ascending=False)`: larger sums
first, with NaN placed last (`na_position` defaults to `last`). -/
def ExtInt.descLe : ExtInt → ExtInt → Bool
  | .nan, .nan => true
  | .nan, _ => false
  | _, .nan => true
  | .pinf, _ => true
  | _, .pinf => false
  | .ninf, .ninf => true
  | .ninf, .fin _ => false
  | .fin _, .ninf => true
  | .fin x, .fin y => decide (y ≤ x)

theorem ExtInt.descLe_total (a b : ExtInt) :
    a.descLe b = true ∨ b.descLe a = true := by
  cases a <;> cases b <;> simp [ExtInt.descLe] <;> omega

theorem ExtInt.descLe_trans (a b c : ExtInt) (h1 : a.descLe b = true)
    (h2 : b.descLe c = true) : a.descLe c = true := by
  cases a <;> cases b <;> cases c <;> simp_all [ExtInt.descLe] <;> omega

theorem ExtInt.descLe_refl (a : ExtInt) : a.descLe a = true := by
  cases a <;> simp [ExtInt.descLe]

/-- Pandas compares string group keys by code points; `String.data` compared
lexicographically models that. -/
def strLe (s t : String) : Bool := decide (s.data ≤ t.data)

/-- Strict version of `strLe`. -/
def strLt (s t : String) : Bool := decide (s.data < t.data)

theorem strLe_total (a b : String) : strLe a b = true ∨ strLe b a = true := by
  simpa [strLe] using le_total a.data b.data

theorem strLe_trans (a b c : String) (h1 : strLe a b = true)
    (h2 : strLe b c = true) : strLe a c = true := by
  simp only [strLe, decide_eq_true_eq] at *
  exact le_trans h1 h2

theorem strLe_antisymm (a b : String) (h1 : strLe a b = true)
    (h2 : strLe b a = true) : a = b := by
  simp only [strLe, decide_eq_true_eq] at h1 h2
  exact String.ext (le_antisymm h1 h2)

theorem strLt_of_le_of_ne (a b : String) (h1 : strLe a b = true)
    (h2 : a ≠ b) : strLt a b = true := by
  simp only [strLe, decide_eq_true_eq] at h1
  simp only [strLt, decide_eq_true_eq]
  exact lt_of_le_of_ne h1 (fun hd => h2 (String.ext hd))

/-- Insertion of an element in front of the first position where the
comparator accepts it; together with `sortBy` this is a stable sort, the
model used for `sort_values`. -/
def insertBy {α : Type} (le : α → α → Bool) (a : α) : List α → List α
  | [] => [a]
  | b :: bs => if le a b then a :: b :: bs else b :: insertBy le a bs

/-- Stable sort by a boolean comparator. -/
def sortBy {α : Type} (le : α → α → Bool) : List α → List α
  | [] => []
  | a :: as => insertBy le a (sortBy le as)

theorem mem_insertBy {α : Type} (le : α → α → Bool) (a x : α) (l : List α) :
    x ∈ insertBy le a l ↔ x = a ∨ x ∈ l := by
  induction l with
  | nil => simp [insertBy]
  | cons b bs ih =>
    cases h : le a b with
    | true => simp [insertBy, h]
    | false =>
      simp only [insertBy, h, Bool.false_eq_true, if_false, List.mem_cons, ih]
      tauto

theorem insertBy_perm {α : Type} (le : α → α → Bool) (a : α) (l : List α) :
    (insertBy le a l).Perm (a :: l) := by
  induction l with
  | nil => simp [insertBy]
  | cons b bs ih =>
    cases h : le a b with
    | true => simp [insertBy, h]
    | false =>
      simp only [insertBy, h, Bool.false_eq_true, if_false]
      exact (ih.cons b).trans (List.Perm.swap a b bs)

theorem sortBy_perm {α : Type} (le : α → α → Bool) (l : List α) :
    (sortBy le l).Perm l := by
  induction l with
  | nil => simp [sortBy]
  | cons a as ih => exact (insertBy_perm le a (sortBy le as)).trans (ih.cons a)

theorem insertBy_pairwise {α : Type} (le : α → α → Bool) (P : α → α → Prop)
    (htot : ∀ a b, le a b = true ∨ le b a = true)
    (htr : ∀ a b c, le a b = true → le b c = true → le a c = true)
    (a : α) (l : List α)
    (hl : l.Pairwise (fun x y => le x y = true ∧ (le y x = true → P x y)))
    (hP : ∀ b ∈ l, P a b) :
    (insertBy le a l).Pairwise
      (fun x y => le x y = true ∧ (le y x = true → P x y)) := by
  induction l with
  | nil => simp [insertBy]
  | cons b bs ih =>
    rcases List.pairwise_cons.mp hl with ⟨hb, hbs⟩
    cases h : le a b with
    | true =>
      simp only [insertBy, h, if_true]
      refine List.pairwise_cons.mpr ⟨?_, hl⟩
      intro x hx
      rcases List.mem_cons.mp hx with rfl | hx
      · exact ⟨h, fun _ => hP x (List.mem_cons_self _ _)⟩
      · exact ⟨htr a b x h (hb x hx).1,
          fun _ => hP x (List.mem_cons_of_mem _ hx)⟩
    | false =>
      simp only [insertBy, h, Bool.false_eq_true, if_false]
      refine List.pairwise_cons.mpr
        ⟨?_, ih hbs (fun x hx => hP x (List.mem_cons_of_mem _ hx))⟩
      intro x hx
      rcases (mem_insertBy le a x bs).mp hx with rfl | hx
      · refine ⟨?_, fun hc => absurd hc (by simp [h])⟩
        rcases htot x b with ht | ht
        · exact absurd ht (by simp [h])
        · exact ht
      · exact hb x hx

theorem sortBy_pairwise {α : Type} (le : α → α → Bool) (P : α → α → Prop)
    (htot : ∀ a b, le a b = true ∨ le b a = true)
    (htr : ∀ a b c, le a b = true → le b c = true → le a c = true)
    (l : List α) (hl : l.Pairwise P) :
    (sortBy le l).Pairwise
      (fun x y => le x y = true ∧ (le y x = true → P x y)) := by
  induction l with
  | nil => simp [sortBy]
  | cons a as ih =>
    rcases List.pairwise_cons.mp hl with ⟨ha, has⟩
    exact insertBy_pairwise le P htot htr a (sortBy le as) (ih has)
      (fun b hb => ha b ((sortBy_perm le as).mem_iff.mp hb))

theorem sortBy_sorted {α : Type} (le : α → α → Bool)
    (htot : ∀ a b, le a b = true ∨ le b a = true)
    (htr : ∀ a b c, le a b = true → le b c = true → le a c = true)
    (l : List α) : (sortBy le l).Pairwise (fun x y => le x y = true) := by
  have h := sortBy_pairwise le (fun _ _ => True) htot htr l
    (List.pairwise_iff_forall_sublist.mpr (fun _ => trivial))
  exact h.imp (fun hxy => hxy.1)

theorem sortBy_eq_of_perm {α : Type} (le : α → α → Bool)
    (htot : ∀ a b, le a b = true ∨ le b a = true)
    (htr : ∀ a b c, le a b = true → le b c = true → le a c = true)
    (hanti : ∀ a b, le a b = true → le b a = true → a = b)
    {l₁ l₂ : List α} (hp : l₁.Perm l₂) : sortBy le l₁ = sortBy le l₂ := by
  haveI : IsAntisymm α (fun a b => le a b = true) := ⟨hanti⟩
  exact List.eq_of_perm_of_sorted (r := fun a b => le a b = true)
    ((sortBy_perm le l₁).trans (hp.trans (sortBy_perm le l₂).symm))
    (sortBy_sorted le htot htr l₁) (sortBy_sorted le htot htr l₂)

/-- Keys enumerated by `groupby("country")`: the distinct countries in
ascending key order (pandas `groupby` sorts keys by default). -/
def groupKeys (rows : List Record) : List String :=
  sortBy strLe (rows.map (fun r => r.country)).dedup

/-- Column of `total` cells of one country group. -/
def groupCells (rows : List Record) (k : String) : List Cell :=
  (rows.filter (fun r => r.country = k)).map (fun r => r.total)

/-- Summed `total` of one country group, as `groupby("country")["total"].sum()`
computes it. -/
def groupSum (rows : List Record) (k : String) : ExtInt :=
  extSum (groupCells rows k)

/-- Result of `groupby("country")["total"].sum()`: one `(country, sum)` pair
per distinct country, in ascending country order. -/
def groupPairs (rows : List Record) : List (String × ExtInt) :=
  (groupKeys rows).map (fun k => (k, groupSum rows k))

/-- Comparator applied by `sort_values(ascending=False)` on the summed
Series: it compares the sums only. -/
def pairDescLe (p q : String × ExtInt) : Bool := p.2.descLe q.2

/-- Embedding of line 227 of src/app.py:
`filtered_data.groupby("country")["total"].sum().sort_values(ascending=False)`. -/
def homeless_by_country (rows : List Record) : List (String × ExtInt) :=
  sortBy pairDescLe (groupPairs rows)

theorem pairDescLe_total (p q : String × ExtInt) :
    pairDescLe p q = true ∨ pairDescLe q p = true :=
  ExtInt.descLe_total p.2 q.2

theorem pairDescLe_trans (p q r : String × ExtInt)
    (h1 : pairDescLe p q = true) (h2 : pairDescLe q r = true) :
    pairDescLe p r = true :=
  ExtInt.descLe_trans p.2 q.2 r.2 h1 h2

theorem groupKeys_nodup (rows : List Record) : (groupKeys rows).Nodup :=
  ((sortBy_perm strLe _).nodup_iff).mpr (List.nodup_dedup _)

theorem groupKeys_pairwise_lt (rows : List Record) :
    (groupKeys rows).Pairwise (fun a b => strLt a b = true) := by
  have hs := sortBy_sorted strLe strLe_total strLe_trans
    (rows.map (fun r => r.country)).dedup
  have hn : (groupKeys rows).Pairwise (fun a b => a ≠ b) := groupKeys_nodup rows
  exact (hs.and hn).imp (fun h => strLt_of_le_of_ne _ _ h.1 h.2)

/-- Distinct elements of a list in first-seen order. -/
def dedupFS : List String → List String
  | [] => []
  | x :: xs => x :: (dedupFS xs).filter (fun y => y ≠ x)

/-- Countries of a view in first-seen order, used to express the tie order
asserted by the spec and to build the pre-merged dataset of C6. -/
def firstSeenKeys (rows : List Record) : List String :=
  dedupFS (rows.map (fun r => r.country))

/-- Modelled from the spec: sum-by-country whose `(country, sum)` pairs are
listed in first-seen order before the stable descending sort, so that among
equal sums the first-seen order of the input is preserved. This is the
behaviour the spec asserts for line 227; compare `homeless_by_country`. -/
def specSumByCountryFirstSeen (rows : List Record) : List (String × ExtInt) :=
  sortBy pairDescLe ((firstSeenKeys rows).map (fun k => (k, groupSum rows k)))

/-- Two-country view in which country "B" appears before country "A" and both
have the same summed total. -/
def viewBA : List Record := [mkRec "B" (.val 10), mkRec "A" (.val 10)]

/-- C2 counterexample: on a view where "B" is seen first and both countries
have equal sums, the code produces "A" first, because `groupby` enumerates
keys in ascending country order before `sort_values` runs; the first-seen
order required by the claim would put "B" first. -/
theorem homeless_by_country_ties_not_first_seen :
    homeless_by_country viewBA = [("A", .fin 10), ("B", .fin 10)] ∧
    specSumByCountryFirstSeen viewBA = [("B", .fin 10), ("A", .fin 10)] ∧
    homeless_by_country viewBA ≠ specSumByCountryFirstSeen viewBA := by
  refine ⟨by decide, by decide, by decide⟩

/-- C2 (amended): the aggregation of line 227 returns exactly the
`(country, totalSum)` pairs of the groupby (one pair per distinct country,
summing the totals of that country), sorted by sum in non-increasing order; ties
between equal sums are broken by country name in ascending order (the key
order of the groupby), not by first-seen input order. -/
theorem homeless_by_country_sorted_desc (rows : List Record) :
    (homeless_by_country rows).Perm (groupPairs rows) ∧
    (homeless_by_country rows).Pairwise (fun p q =>
      ExtInt.descLe p.2 q.2 = true ∧ (p.2 = q.2 → strLt p.1 q.1 = true)) := by
  refine ⟨sortBy_perm _ _, ?_⟩
  have hin : (groupPairs rows).Pairwise (fun p q => strLt p.1 q.1 = true) := by
    unfold groupPairs
    exact (List.pairwise_map).mpr (groupKeys_pairwise_lt rows)
  have h := sortBy_pairwise pairDescLe (fun p q => strLt p.1 q.1 = true)
    pairDescLe_total pairDescLe_trans (groupPairs rows) hin
  refine h.imp (fun hpq => ⟨hpq.1, fun he => hpq.2 ?_⟩)
  show ExtInt.descLe _ _ = true
  rw [he]
  exact ExtInt.descLe_refl _

/-- Cell holding the value of a finished Series reduction (the pre-merged
dataset of C6 stores the summed total back into a `total` cell). -/
def cellOfExt : ExtInt → Cell
  | .nan => .na
  | .pinf => .pinf
  | .ninf => .ninf
  | .fin x => .val x

/-- Modelled from the claim C6: the pre-merged dataset, in which the
duplicate rows of each country are replaced by a single row carrying the sum
of their totals (remaining columns cleared; the aggregation reads only
`country` and `total`). -/
def mergedRow (rows : List Record) (k : String) : Record :=
  ⟨k, cellOfExt (groupSum rows k), .na, .na, .na, .na, .na, .na⟩

/-- Dataset obtained by merging the duplicate rows of each country into the
single row `mergedRow`. -/
def mergeByCountry (rows : List Record) : List Record :=
  (firstSeenKeys rows).map (mergedRow rows)

theorem mem_dedupFS (x : String) (l : List String) :
    x ∈ dedupFS l ↔ x ∈ l := by
  induction l with
  | nil => simp [dedupFS]
  | cons y ys ih =>
    simp only [dedupFS, List.mem_cons, List.mem_filter, ih, ne_eq,
      decide_not, Bool.not_eq_eq_eq_not, Bool.not_true, decide_eq_false_iff_not]
    by_cases hxy : x = y
    · subst hxy; tauto
    · tauto

theorem nodup_dedupFS (l : List String) : (dedupFS l).Nodup := by
  induction l with
  | nil => simp [dedupFS]
  | cons y ys ih =>
    refine List.nodup_cons.mpr ⟨?_, ih.filter _⟩
    intro hy
    have := (List.mem_filter.mp hy).2
    simp at this

theorem foldl_addCell_fin (l : List Cell)
    (h : ∀ c ∈ l, c.isFiniteVal = true) :
    ∀ s : Int, ∃ t : Int, l.foldl ExtInt.addCell (.fin s) = .fin t := by
  induction l with
  | nil => exact fun s => ⟨s, rfl⟩
  | cons c cs ih =>
    intro s
    cases c with
    | val x =>
      simp only [List.foldl_cons, ExtInt.addCell]
      exact ih (fun d hd => h d (List.mem_cons_of_mem _ hd)) (s + x)
    | na =>
      have := h .na (List.mem_cons_self _ _)
      simp [Cell.isFiniteVal] at this
    | pinf =>
      have := h .pinf (List.mem_cons_self _ _)
      simp [Cell.isFiniteVal] at this
    | ninf =>
      have := h .ninf (List.mem_cons_self _ _)
      simp [Cell.isFiniteVal] at this

theorem extSum_isFin (l : List Cell) (h : ∀ c ∈ l, c.isFiniteVal = true) :
    ∃ s : Int, extSum l = .fin s :=
  foldl_addCell_fin l h 0

theorem filter_country_map (f : String → Record)
    (hf : ∀ x, (f x).country = x) :
    ∀ (keys : List String), keys.Nodup → ∀ k ∈ keys,
      (keys.map f).filter (fun r => r.country = k) = [f k] := by
  intro keys
  induction keys with
  | nil => intro _ k hk; cases hk
  | cons a as ih =>
    intro hnd k hk
    rcases List.nodup_cons.mp hnd with ⟨ha, has⟩
    rcases List.mem_cons.mp hk with rfl | hk2
    · have htl : (as.map f).filter (fun r => r.country = k) = [] := by
        apply List.filter_eq_nil_iff.mpr
        intro r hr
        rcases List.mem_map.mp hr with ⟨x, hx, rfl⟩
        simp only [hf, decide_eq_true_eq]
        exact fun hxa => ha (hxa ▸ hx)
      simp only [List.map_cons, List.filter_cons, hf, htl]
      simp
    · have hak : a ≠ k := fun hae => ha (hae ▸ hk2)
      simp only [List.map_cons, List.filter_cons, hf]
      rw [if_neg (by simpa using hak)]
      exact ih has k hk2

theorem groupKeys_merge (rows : List Record) :
    groupKeys (mergeByCountry rows) = groupKeys rows := by
  unfold groupKeys
  apply sortBy_eq_of_perm strLe strLe_total strLe_trans strLe_antisymm
  have h1 : (mergeByCountry rows).map (fun r => r.country) =
      firstSeenKeys rows := by
    unfold mergeByCountry
    rw [List.map_map]
    have hco : ((fun r : Record => r.country) ∘ mergedRow rows) =
        fun k => k := rfl
    rw [hco]
    simp
  have hnd : (firstSeenKeys rows).Nodup := nodup_dedupFS _
  rw [h1, List.dedup_eq_self.mpr hnd]
  apply (List.perm_ext_iff_of_nodup (nodup_dedupFS _)
    (List.nodup_dedup _)).mpr
  intro a
  rw [List.mem_dedup]
  exact mem_dedupFS a _

/-- C6: aggregating a dataset with duplicate-country rows gives the same
result as aggregating the pre-merged dataset in which each country keeps a
single row carrying the sum of its totals, provided every `total` cell is a
finite value (the Record data model allows only finite totals). -/
theorem homeless_by_country_merge_invariant (rows : List Record)
    (h : ∀ r ∈ rows, r.total.isFiniteVal = true) :
    homeless_by_country (mergeByCountry rows) = homeless_by_country rows := by
  unfold homeless_by_country
  congr 1
  unfold groupPairs
  rw [groupKeys_merge]
  apply List.map_congr_left
  intro k hk
  have hk2 : k ∈ firstSeenKeys rows := by
    have hmem := (sortBy_perm strLe _).mem_iff.mp hk
    rw [List.mem_dedup] at hmem
    exact (mem_dedupFS k _).mpr hmem
  have hfin : ∀ c ∈ groupCells rows k, c.isFiniteVal = true := by
    intro c hc
    rcases List.mem_map.mp hc with ⟨r, hr, rfl⟩
    exact h r (List.mem_of_mem_filter hr)
  obtain ⟨s, hs⟩ := extSum_isFin _ hfin
  have hs2 : groupSum rows k = .fin s := hs
  have hnd2 : (firstSeenKeys rows).Nodup := nodup_dedupFS _
  have hcells : groupCells (mergeByCountry rows) k =
      [cellOfExt (groupSum rows k)] := by
    unfold groupCells mergeByCountry
    rw [filter_country_map (mergedRow rows) (fun x => rfl)
      (firstSeenKeys rows) hnd2 k hk2]
    rfl
  have hgs : groupSum (mergeByCountry rows) k = groupSum rows k := by
    unfold groupSum
    rw [hcells, hs2, hs]
    simp [extSum, cellOfExt, ExtInt.addCell]
  rw [hgs]

/-- Dataset with a duplicated country, for the C6 witness. -/
def demoDup : List Record :=
  [mkRec "A" (.val 100), mkRec "A" (.val 50), mkRec "B" (.val 30)]

/-- Witness for C6 on a concrete dataset with duplicate rows for "A". -/
theorem homeless_by_country_merge_invariant_witness :
    (∀ r ∈ demoDup, r.total.isFiniteVal = true) ∧
    homeless_by_country (mergeByCountry demoDup) =
      homeless_by_country demoDup :=
  ⟨by decide, homeless_by_country_merge_invariant demoDup (by decide)⟩

/-- Fixed allow-list of the pie section (lines 251 and 266 of src/app.py). -/
def allowList : List String := ["United States", "Australia", "Japan"]

/-- Embedding of line 266:
`filtered_data[filtered_data["country"].isin(the three allow-list countries)]`. -/
def selected_countries_data (rows : List Record) : List Record :=
  rows.filter (fun r => allowList.contains r.country)

/-- Rendering outcome of the pie section: either the `st.warning` branch or
a chart built from the grouped sums. -/
inductive PieView where
  | warning : PieView
  | chart : List (String × ExtInt) → PieView
deriving DecidableEq, Repr

/-- Embedding of lines 269-284: if the restricted frame is empty, show the
warning "No data available for the selected countries in the current
filters."; otherwise aggregate `groupby("country")["total"].sum()` (keys in
ascending order, no further sort) and render the pie. -/
def pie_view (rows : List Record) : PieView :=
  if (selected_countries_data rows).isEmpty then .warning
  else .chart (groupPairs (selected_countries_data rows))

/-- C7: the pie pipeline restricts the filtered view to the fixed allow-list
before summing; an empty restriction yields the explicit warning state and
the aggregation-dependent rendering is not attempted; a non-empty
restriction yields the chart. The function is total, so no error is raised
in either case. -/
theorem pie_view_spec (rows : List Record) :
    (∀ r : Record, r ∈ selected_countries_data rows ↔
      r ∈ rows ∧ r.country ∈ allowList) ∧
    (selected_countries_data rows = [] → pie_view rows = PieView.warning) ∧
    (selected_countries_data rows ≠ [] →
      pie_view rows = PieView.chart (groupPairs (selected_countries_data rows))) := by
  refine ⟨?_, ?_, ?_⟩
  · intro r
    simp [selected_countries_data, List.mem_filter]
  · intro h
    unfold pie_view
    rw [h]
    rfl
  · intro h
    unfold pie_view
    rw [if_neg (by simpa [List.isEmpty_iff] using h)]

/-- Witness for C7 at the empty-subset scenario of the spec: the dataset has
a single country "Z", not on the allow-list. -/
theorem pie_view_spec_witness :
    selected_countries_data [mkRec "Z" (.val 1)] = [] ∧
    pie_view [mkRec "Z" (.val 1)] = PieView.warning :=
  ⟨by decide, (pie_view_spec [mkRec "Z" (.val 1)]).2.1 (by decide)⟩

/-- Column `filtered_data["total"]` of a view. -/
def totalColumn (rows : List Record) : List Cell :=
  rows.map (fun r => r.total)

/-- Embedding of lines 300-301: `dropna()` followed by the `np.isfinite`
mask, leaving exactly the finite cells. -/
def clean_data (col : List Cell) : List Cell :=
  (col.filter (fun c => !c.isNA)).filter (fun c => c.isFiniteVal)

/-- Rendering outcome of the histogram section: either the `st.warning`
branch or the histogram applied to the cleaned column. -/
inductive HistView where
  | warning : HistView
  | histogram : List Cell → HistView
deriving DecidableEq, Repr

/-- Embedding of lines 303-317: the emptiness check on the cleaned column
guards the call of the binning routine (`sns.histplot`); the binning input is
recorded in the `histogram` constructor. -/
def hist_view (rows : List Record) : HistView :=
  if (clean_data (totalColumn rows)).isEmpty then .warning
  else .histogram (clean_data (totalColumn rows))

/-- C8: the cleaning step keeps exactly the finite cells of the `total`
column (dropping nulls and non-finite values), and when the cleaned column
is empty the section surfaces the warning state and the binning routine is
never reached. -/
theorem hist_view_spec (rows : List Record) :
    clean_data (totalColumn rows) =
      (totalColumn rows).filter (fun c => c.isFiniteVal) ∧
    (clean_data (totalColumn rows) = [] → hist_view rows = HistView.warning) ∧
    (clean_data (totalColumn rows) ≠ [] →
      hist_view rows = HistView.histogram (clean_data (totalColumn rows))) := by
  refine ⟨?_, ?_, ?_⟩
  · unfold clean_data
    rw [List.filter_filter]
    apply List.filter_congr
    intro c _
    cases c <;> rfl
  · intro h
    unfold hist_view
    rw [h]
    rfl
  · intro h
    unfold hist_view
    rw [if_neg (by simpa [List.isEmpty_iff] using h)]

/-- Witness for C8 at a view whose only `total` cell is null. -/
theorem hist_view_spec_witness :
    clean_data (totalColumn [mkRec "X" Cell.na]) = [] ∧
    hist_view [mkRec "X" Cell.na] = HistView.warning :=
  ⟨by decide, (hist_view_spec [mkRec "X" Cell.na]).2.1 (by decide)⟩

/-- Static region table of lines 177-186. Line 177 rebinds the name `data`
to this 9-row frame, shadowing the loaded dataset for the rest of the
script. -/
def regionMapData : List (String × String) :=
  [("India", "Asia"), ("Japan", "Asia"), ("United Kingdom", "Europe"),
   ("Germany", "Europe"), ("Canada", "North America"),
   ("Mexico", "North America"), ("Brazil", "South America"),
   ("South Africa", "Africa"), ("Australia", "Oceania")]

/-- Rendering outcome of the treemap section: the `st.warning` branch or a
chart over `(country, region)` rows. -/
inductive TreemapView where
  | warning : TreemapView
  | chart : List (String × String) → TreemapView
deriving DecidableEq, Repr

/-- Embedding of lines 200-210: the rows handed to `px.treemap` for a given
filtered view. The call passes the static frame `data` (the region table of
line 177) and never consults `filtered_data`, so the input is the constant
region table. -/
def treemapInput (rows : List Record) : List (String × String) :=
  regionMapData

/-- Embedding of the guard of lines 200-210: warn if the frame is empty,
otherwise render the treemap of that frame. -/
def treemap_view (rows : List Record) : TreemapView :=
  if (treemapInput rows).isEmpty then .warning
  else .chart (treemapInput rows)

/-- Modelled from the spec: left-join of the countries of the filtered view
against the region map by exact string match, with countries lacking a match
omitted rather than errored. -/
def specTreemapJoin (rows : List Record) : List (String × String) :=
  rows.filterMap (fun r =>
    match regionMapData.lookup r.country with
    | some reg => some (r.country, reg)
    | none => none)

/-- Filtered view holding a row for "India" (present in the region table)
and a row for "Atlantis" (absent from it). -/
def viewIndiaAtlantis : List Record :=
  [mkRec "India" (.val 100), mkRec "Atlantis" (.val 5)]

/-- C3 counterexample: on the "India"/"Atlantis" view, the join the claim
describes yields exactly the single "India" row, but the treemap input of
the code is the full 9-row static region table, which differs: the code
performs no join at all. -/
theorem treemapInput_is_not_a_join :
    specTreemapJoin viewIndiaAtlantis = [("India", "Asia")] ∧
    (specTreemapJoin viewIndiaAtlantis).length = 1 ∧
    (treemapInput viewIndiaAtlantis).length = 9 ∧
    treemapInput viewIndiaAtlantis ≠ specTreemapJoin viewIndiaAtlantis := by
  refine ⟨by decide, by decide, by decide, by decide⟩

/-- C3 (amended): the treemap input is the static region table itself, for
every filtered view; no join with the filtered view happens, and the chart
branch always renders those 9 static rows. -/
theorem treemap_view_static (rows : List Record) :
    treemapInput rows = regionMapData ∧
    treemap_view rows = TreemapView.chart regionMapData :=
  ⟨rfl, rfl⟩

/-- DataFrame at the load boundary: column names and rows of cells. -/
structure Frame where
  header : List String
  cells : List (List Cell)
deriving DecidableEq, Repr

/-- Result of the bare `pd.DataFrame()` of line 139: no columns, no rows. -/
def emptyFrame : Frame := ⟨[], []⟩

/-- Whitespace trim of one column name, modelling Python `str.strip()`. -/
def stripName (s : String) : String :=
  ⟨((s.data.dropWhile Char.isWhitespace).reverse.dropWhile
    Char.isWhitespace).reverse⟩

/-- Embedding of line 135: `data.columns = data.columns.str.strip()`. -/
def stripColumns (f : Frame) : Frame :=
  ⟨f.header.map stripName, f.cells⟩

/-- Embedding of `load_data` (lines 129-139): a successful fetch/parse is
returned with stripped column names and no diagnostic; any exception shows
an `st.error` diagnostic and yields the empty frame. No check of the column
schema is performed on either path. -/
def load_data (fetched : Except String Frame) : Frame × Option String :=
  match fetched with
  | .ok f => (stripColumns f, none)
  | .error e => (emptyFrame, some ("Error loading data: " ++ e))

/-- Embedding of the column access `frame[name]`: the column cells when the
name is present, otherwise the KeyError pandas raises. -/
def getColumn (f : Frame) (name : String) : Except String (List Cell) :=
  match f.header.indexOf? name with
  | some i => .ok (f.cells.filterMap (fun row => row[i]?))
  | none => .error ("KeyError: " ++ name)

/-- Minimum of a float Series with skipna semantics: NaN when no non-null
cell exists. -/
def seriesMin (col : List Cell) : ExtInt :=
  match col.filter (fun c => !c.isNA) with
  | [] => .nan
  | c :: cs => cs.foldl (fun a d => extMin a (cellToExt d)) (cellToExt c)
where
  cellToExt : Cell → ExtInt
    | .na => .nan
    | .pinf => .pinf
    | .ninf => .ninf
    | .val x => .fin x
  extMin : ExtInt → ExtInt → ExtInt
    | .nan, _ => .nan
    | _, .nan => .nan
    | .ninf, _ => .ninf
    | _, .ninf => .ninf
    | .pinf, b => b
    | a, .pinf => a
    | .fin x, .fin y => .fin (min x y)

/-- Maximum of a float Series with skipna semantics. -/
def seriesMax (col : List Cell) : ExtInt :=
  match col.filter (fun c => !c.isNA) with
  | [] => .nan
  | c :: cs => cs.foldl (fun a d => extMax a (seriesMin.cellToExt d))
      (seriesMin.cellToExt c)
where
  extMax : ExtInt → ExtInt → ExtInt
    | .nan, _ => .nan
    | _, .nan => .nan
    | .pinf, _ => .pinf
    | _, .pinf => .pinf
    | .ninf, b => b
    | a, .ninf => a
    | .fin x, .fin y => .fin (max x y)

/-- Conversion `int(x)` applied to a float reduction: raises ValueError on
NaN and OverflowError on an infinity. -/
def intOfExt : ExtInt → Except String Int
  | .fin x => .ok x
  | .nan => .error "ValueError: cannot convert float NaN to integer"
  | .pinf => .error "OverflowError: cannot convert float infinity to integer"
  | .ninf => .error "OverflowError: cannot convert float infinity to integer"

/-- Embedding of lines 150-155: the slider bounds
`int(data["total"].min())` and `int(data["total"].max())`. There is no
exception handler around this code, so an error value here means the script
crashes. -/
def homeless_range_bounds (f : Frame) : Except String (Int × Int) := do
  let col ← getColumn f "total"
  let lo ← intOfExt (seriesMin col)
  let hi ← intOfExt (seriesMax col)
  return (lo, hi)

/-- C4: on a fetch or parse failure, `load_data` itself degrades — it shows
a visible diagnostic and returns the empty frame — but the very next
top-level statement raises: the slider setup reads `data["total"]` from the
empty frame, a KeyError with no handler, so the downstream crashes instead
of presenting empty charts with warnings. -/
theorem load_failure_crashes_downstream (e : String) :
    load_data (.error e) = (emptyFrame, some ("Error loading data: " ++ e)) ∧
    homeless_range_bounds (load_data (.error e)).1 =
      .error "KeyError: total" :=
  ⟨rfl, rfl⟩

/-- Required dataset fields named by the spec. -/
def requiredFields : List String :=
  ["country", "total", "individuals", "family_households", "veterans",
   "unaccompanied_youth", "latitude", "longitude"]

/-- Parsed frame providing only a `country` column: every numeric required
field, `total` included, is missing. -/
def noTotalFrame : Frame := ⟨["country"], [[Cell.val 0]]⟩

/-- C5 counterexample: a successfully parsed frame that lacks the required
`total` column (and six further required fields) is returned by `load_data`
unchanged and with no diagnostic: the loader performs no schema validation,
so no SchemaError is possible and startup is not halted at load time. -/
theorem load_data_accepts_missing_columns :
    requiredFields.all (fun c => noTotalFrame.header.contains c) = false ∧
    load_data (.ok noTotalFrame) = (noTotalFrame, none) :=
  ⟨by decide, by decide⟩

theorem indexOf_eq_none_of_not_mem (name : String) (l : List String)
    (h : name ∉ l) : l.indexOf? name = none := by
  unfold List.indexOf?
  apply List.findIdx?_eq_none_iff.mpr
  intro x hx
  simp only [beq_eq_false_iff_ne, ne_eq]
  exact fun hxe => h (hxe ▸ hx)

/-- C5 (amended): the loader returns any successfully parsed frame without
validating the schema and without raising or diagnosing anything; a missing
required `total` column surfaces only downstream, as an uncaught KeyError in
the slider setup of line 150 (after the title section has already rendered),
never as a load-time SchemaError. -/
theorem missing_total_fails_at_slider (f : Frame)
    (h : "total" ∉ (stripColumns f).header) :
    (load_data (.ok f)).1 = stripColumns f ∧
    (load_data (.ok f)).2 = none ∧
    homeless_range_bounds (load_data (.ok f)).1 =
      .error "KeyError: total" := by
  refine ⟨rfl, rfl, ?_⟩
  show homeless_range_bounds (stripColumns f) = _
  unfold homeless_range_bounds getColumn
  rw [indexOf_eq_none_of_not_mem _ _ h]
  rfl

/-- Witness for the amended C5 at the concrete frame missing `total`. -/
theorem missing_total_fails_at_slider_witness :
    "total" ∉ (stripColumns noTotalFrame).header ∧
    homeless_range_bounds (load_data (.ok noTotalFrame)).1 =
      .error "KeyError: total" :=
  ⟨by decide, (missing_total_fails_at_slider noTotalFrame (by decide)).2.2⟩

end Dashboard
